import Mathlib

/-!
Verification of the AdminPanel data-fetching and client-state layer.

This file shallowly embeds the transport adapter (`lib/api`), the domain API
client operations, the session store hook (`useAdminSession`), and the job-form
payload construction from `app/admin/jobs/page.tsx`, and proves the documented
properties about them.

JavaScript strings are modelled as Lean `String` (a list of characters);
JavaScript truthiness on strings is emptiness, on numbers comparison with zero;
values that may be `undefined` are modelled with `Option`. Results of
JavaScript code that may `throw` are modelled with `Except`. Uppercasing is
modelled with the full Unicode one-to-many special-casing expansions.
-/

namespace AdminPanel

/-! ## Generic JavaScript string helpers -/

/-- Predicate `startsWithL l p` holds when the character list `p` is an initial segment of
`l`; it embeds JavaScript `String.prototype.startsWith` on decoded strings. -/
def startsWithL : List Char → List Char → Bool
  | _, [] => true
  | [], _ :: _ => false
  | a :: s, b :: p => a == b && startsWithL s p

/-- Model of JavaScript `s.startsWith(pat)`. -/
def jsStartsWith (s pat : String) : Bool :=
  startsWithL s.data pat.data

/-- Model of JavaScript `s.endsWith(pat)`: the pattern read backwards is an
initial segment of the string read backwards. -/
def jsEndsWith (s pat : String) : Bool :=
  startsWithL s.data.reverse pat.data.reverse

/-- Predicate `containsL l pat` holds when `pat` occurs as a contiguous run inside `l`; embeds
JavaScript `s.includes(pat)` on decoded strings. -/
def containsL : List Char → List Char → Bool
  | [], p => startsWithL [] p
  | l@(_ :: t), p => startsWithL l p || containsL t p

/-- Model of JavaScript `s.includes(pat)`. -/
def jsIncludes (s pat : String) : Bool :=
  containsL s.data pat.data

/-- The whitespace class used by JavaScript `trim` and the regex class `\s`
(the code points relevant to this code base). -/
def isJsWhitespace (c : Char) : Bool :=
  c == ' ' || c == '\t' || c == '\n' || c == '\r' ||
  c == '\u000B' || c == '\u000C'

/-- Model of JavaScript `s.trim()`: drop leading and trailing whitespace. -/
def jsTrim (s : String) : String :=
  String.mk (((s.data.dropWhile isJsWhitespace).reverse.dropWhile isJsWhitespace).reverse)

/-- Model of the JavaScript string-typed `a || b` idiom: the left operand
unless it is empty (falsy). -/
def jsOrStr (s d : String) : String :=
  if s = "" then d else s

/-- Model of `env || rest` where `env : string | undefined`: an absent or
empty variable falls through to the alternative. -/
def envOr (o : Option String) (d : String) : String :=
  match o with
  | some s => if s = "" then d else s
  | none => d

/-! ## Transport adapter: base URL and path resolution (`lib/api`) -/

/-- Model of `rawBase.replace(/\/+$/, "")`: remove the maximal run of trailing
slash characters. -/
def stripTrailingSlashes (s : String) : String :=
  String.mk ((s.data.reverse.dropWhile (· == '/')).reverse)

/-- The base-URL normalization performed at module load in `lib/api`:
strip trailing slashes, then append `"/api"` unless the result already ends
with `"/api"` (the source's `normalizedBase` / `API_BASE` computation). -/
def normalizeBase (s : String) : String :=
  let normalizedBase := stripTrailingSlashes s
  if jsEndsWith normalizedBase "/api" then normalizedBase
  else normalizedBase ++ "/api"

/-- The module-level `API_BASE` constant of `lib/api`, as a function of the two
environment variables `NEXT_PUBLIC_BACKEND_API` and `BACKEND_API`:
`(e1 || e2 || "").trim()` then `normalizeBase`. -/
def computeApiBase (e1 e2 : Option String) : String :=
  normalizeBase (jsTrim (envOr e1 (envOr e2 "")))

/-- The path normalization inside `resolveUrl`:
`path.startsWith("/") ? path : "/" + path`. -/
def normalizePath (path : String) : String :=
  if jsStartsWith path "/" then path else "/" ++ path

/-- Function `resolveUrl` from `lib/api`: throws when `API_BASE` is falsy (empty),
otherwise appends the normalized path to the base. -/
def resolveUrl (apiBase path : String) : Except String String :=
  if apiBase = "" then .error "Missing BACKEND_API environment variable"
  else .ok (apiBase ++ normalizePath path)

/-- A string begins with exactly one leading slash: it starts with `"/"` but
not with `"//"`. -/
def startsWithExactlyOneSlash (s : String) : Prop :=
  jsStartsWith s "/" = true ∧ jsStartsWith s "//" = false

/-- A string ends in exactly one `/api` segment: it ends with `"/api"` but not
with `"/api/api"`. -/
def endsInExactlyOneApi (s : String) : Prop :=
  jsEndsWith s "/api" = true ∧ jsEndsWith s "/api/api" = false

/-! ## JSON values and JavaScript dynamic operations -/

/-- JSON values, the possible results of `response.json()` / `JSON.parse`. -/
inductive JsValue where
  | null : JsValue
  | bool (b : Bool) : JsValue
  | num (n : Int) : JsValue
  | str (s : String) : JsValue
  | arr (elems : List JsValue) : JsValue
  | obj (fields : List (String × JsValue)) : JsValue
deriving BEq

mutual
/-- Model of JavaScript `String(v)` on JSON values. -/
def jsString : JsValue → String
  | .null => "null"
  | .bool true => "true"
  | .bool false => "false"
  | .num n => toString n
  | .str s => s
  | .arr es => String.intercalate "," (jsStringList es)
  | .obj _ => "[object Object]"

/-- Stringification `String(·)` mapped over a list of JSON values. -/
def jsStringList : List JsValue → List String
  | [] => []
  | v :: vs => jsString v :: jsStringList vs
end

/-- Model of `typeof v === "object"` on JSON values (`null`, arrays and plain
objects are of type `"object"`). -/
def jsTypeofObject : JsValue → Bool
  | .null => true
  | .arr _ => true
  | .obj _ => true
  | _ => false

/-- Whether the value is JavaScript `null`. -/
def jsIsNull : JsValue → Bool
  | .null => true
  | _ => false

/-- Model of `"k" in v` on JSON values: only plain objects can carry a string
key named `k` (an array has only index and method keys). -/
def jsHasKey (v : JsValue) (k : String) : Bool :=
  match v with
  | .obj fields => fields.any (fun f => f.1 == k)
  | _ => false

/-- Model of property access `v[k]` on a JSON object known to contain `k`. -/
def jsGetKey (v : JsValue) (k : String) : JsValue :=
  match v with
  | .obj fields =>
    match fields.find? (fun f => f.1 == k) with
    | some f => f.2
    | none => .null
  | _ => .null

/-- Model of the optional-chained property read `v?.k` where `v` itself may be
any JSON value: `none` stands for JavaScript `undefined`. -/
def jsFieldOpt (v : JsValue) (k : String) : Option JsValue :=
  match v with
  | .obj fields =>
    match fields.find? (fun f => f.1 == k) with
    | some f => some f.2
    | none => none
  | _ => none

/-- JavaScript truthiness of a JSON value. -/
def jsTruthy : JsValue → Bool
  | .null => false
  | .bool b => b
  | .num n => n != 0
  | .str s => s != ""
  | .arr _ => true
  | .obj _ => true

/-- Truthiness of a possibly-`undefined` value. -/
def jsTruthyOpt : Option JsValue → Bool
  | none => false
  | some v => jsTruthy v

/-! ## Transport adapter: response handling (`apiFetch`) -/

/-- The typed error raised by the transport adapter (`class ApiError`). -/
structure ApiError where
  message : String
  status : Nat
deriving DecidableEq, Repr

/-- An HTTP response as observed by `apiFetch`: status, status text, the
`Content-Type` header (`none` when absent), and the two possible decodings of
the body supplied by the platform (`response.json()` / `response.text()`). -/
structure HttpResponse where
  status : Nat
  statusText : String
  contentType : Option String
  jsonBody : JsValue
  textBody : String

/-- Model of `Response.ok`: status in the inclusive range 200–299. -/
def responseOk (r : HttpResponse) : Bool :=
  200 ≤ r.status && r.status ≤ 299

/-- The `isJson` test in `apiFetch`: `contentType?.includes("application/json")`
is truthy (an absent header yields `undefined`, which is falsy). -/
def isJsonResponse (r : HttpResponse) : Bool :=
  match r.contentType with
  | some ct => jsIncludes ct "application/json"
  | none => false

/-- The decoded payload of `apiFetch`: the JSON decoding when the content type
says JSON, the text decoding otherwise. -/
inductive Payload where
  | json (v : JsValue) : Payload
  | text (s : String) : Payload
deriving BEq

/-- Model of `payload = isJson ? await response.json() : await response.text()`. -/
def decodedPayload (r : HttpResponse) : Payload :=
  if isJsonResponse r then .json r.jsonBody else .text r.textBody

/-- The outcome of `apiFetch` once a response has arrived: the decoded payload
on a 2xx status, otherwise an `ApiError` whose message is
`(isJson && typeof payload === "object" && payload !== null && "error" in
payload ? String(payload.error) : response.statusText) || "Unexpected API
error"` and whose status is the response status. -/
def apiFetchOutcome (r : HttpResponse) : Except ApiError Payload :=
  let payload := decodedPayload r
  if responseOk r then .ok payload
  else
    let chosen :=
      match payload with
      | .json v =>
        if jsTypeofObject v && !jsIsNull v && jsHasKey v "error" then
          jsString (jsGetKey v "error")
        else r.statusText
      | .text _ => r.statusText
    .error ⟨jsOrStr chosen "Unexpected API error", r.status⟩

/-! ## Domain API client: `loginAdmin` -/

/-- The admin identity carried in a successful login response. -/
structure AdminIdentity where
  username : String
deriving DecidableEq, Repr

/-- The login response body `{success, admin?, message?}` expected by
`loginAdmin`; the whole body may be `null`/`undefined` (`Option` at the call
site). -/
structure LoginResponse where
  success : Bool
  admin : Option AdminIdentity
  message : Option String
deriving DecidableEq, Repr

/-- The message chosen by `loginAdmin` on failure:
`data?.message || "Failed to sign in"`. -/
def loginFailMessage (data : Option LoginResponse) : String :=
  jsOrStr (match data with
    | some d => d.message.getD ""
    | none => "") "Failed to sign in"

/-- The decision logic of `loginAdmin` on a transport-successful response body:
`if (!data?.success || !data.admin?.username) throw new ApiError(data?.message
|| "Failed to sign in", 400); return data.admin`. An empty username is falsy. -/
def loginAdminLogic (data : Option LoginResponse) : Except ApiError AdminIdentity :=
  match data with
  | some d =>
    match d.admin with
    | some a =>
      if d.success && !(a.username == "") then .ok a
      else .error ⟨loginFailMessage data, 400⟩
    | none => .error ⟨loginFailMessage data, 400⟩
  | none => .error ⟨loginFailMessage data, 400⟩

/-! ## Domain API client: `fetchJobs` query building -/

/-- The optional parameters of `fetchJobs` (JavaScript numbers are modelled as
integers; `none` is an absent parameter). -/
structure JobsParams where
  limit : Option Int := none
  offset : Option Int := none

/-- Model of `URLSearchParams.set`: replace the value of an existing key, else append
the pair. -/
def urlParamsSet (l : List (String × String)) (k v : String) : List (String × String) :=
  if l.any (fun kv => kv.1 == k) then
    l.map (fun kv => if kv.1 == k then (k, v) else kv)
  else l ++ [(k, v)]

/-- Model of `URLSearchParams.toString`: `k=v` pairs joined by `&` (no character in the
parameters used here needs escaping). -/
def urlParamsToString (l : List (String × String)) : String :=
  String.intercalate "&" (l.map (fun kv => kv.1 ++ "=" ++ kv.2))

/-- The query parameters built by `fetchJobs`:
`if (params.limit) searchParams.set("limit", params.limit.toString())` — a
truthiness test, so `0` is skipped — then
`if (typeof params.offset === "number") searchParams.set("offset", ...)`. -/
def buildJobsSearchParams (p : JobsParams) : List (String × String) :=
  let sp : List (String × String) := []
  let sp := match p.limit with
    | some v => if v != 0 then urlParamsSet sp "limit" (toString v) else sp
    | none => sp
  match p.offset with
  | some v => urlParamsSet sp "offset" (toString v)
  | none => sp

/-- The endpoint string built by `fetchJobs`: `/jobs?query` when the query is
nonempty, bare `/jobs` otherwise. -/
def fetchJobsEndpoint (p : JobsParams) : String :=
  let query := urlParamsToString (buildJobsSearchParams p)
  if query ≠ "" then "/jobs?" ++ query else "/jobs"

/-! ## Session store (`useAdminSession`) -/

/-- What the persisted storage slot under the session key can hold: nothing
(`getItem` returns `null`, or the stored string is empty and thus falsy),
a string that `JSON.parse` rejects, or a string that parses to a JSON value. -/
inductive StorageContent where
  | absent : StorageContent
  | corrupt : StorageContent
  | json (v : JsValue) : StorageContent
deriving BEq

/-- The outcome of reading the storage slot: the content, or a thrown storage
access error. -/
inductive StorageRead where
  | ok (c : StorageContent) : StorageRead
  | failure : StorageRead

/-- The component state of the hook: the `admin` state (the parsed session
object or `null`) and the `hydrated` flag. -/
structure StoreState where
  admin : Option JsValue
  hydrated : Bool
deriving BEq

/-- The state before the hydration effect runs: `useState(null)` /
`useState(false)`. -/
def initialStoreState : StoreState :=
  ⟨none, false⟩

/-- The hydration effect of `useAdminSession`: try to read and `JSON.parse`
the stored record and adopt it when `parsed?.username` is truthy; any thrown
storage or parse error is caught (a warning is logged); the `finally` block
sets `hydrated` in every path. Total by construction — the effect never
rethrows. -/
def hydrate (read : StorageRead) (s : StoreState) : StoreState :=
  match read with
  | .failure => { s with hydrated := true }
  | .ok .absent => { s with hydrated := true }
  | .ok .corrupt => { s with hydrated := true }
  | .ok (.json v) =>
    let s := if jsTruthyOpt (jsFieldOpt v "username") then { s with admin := some v } else s
    { s with hydrated := true }

/-- The full session system: the in-memory store plus the persisted slot. -/
structure SessionSys where
  store : StoreState
  storage : StorageContent

/-- Function `saveSession` (exposed as `setSession`): a non-null session is written to
storage (`setItem` with its JSON serialization, which parses back to the same
value) and adopted in memory; `null` removes the record and clears the state.
`hydrated` is not modified. -/
def saveSession (sess : Option JsValue) (sys : SessionSys) : SessionSys :=
  match sess with
  | some s => { store := { sys.store with admin := some s }, storage := .json s }
  | none => { store := { sys.store with admin := none }, storage := .absent }

/-- The derived `isAuthenticated` value: `hydrated && !!admin`. -/
def isAuthenticated (s : StoreState) : Bool :=
  s.hydrated && s.admin.isSome

/-! ## Job form payload (`handleSubmitJob` in `app/admin/jobs/page.tsx`) -/

/-- The form values of the job modal (`JobFormValues`). -/
structure JobFormValues where
  title : String
  slug : String
  company : String
  applyUrl : String
  salary : String
  image : String
  tech : String
  markdown : String
  isActive : Bool

/-- The payload accepted by `createJob`/`updateJob` (`JobPayload`); optional
fields are `Option`, with `none` for `undefined`/`null`. -/
structure JobPayload where
  title : String
  company : String
  applyUrl : String
  markdown : String
  tech : List String
  slug : Option String
  salary : Option String
  image : Option String
  isActive : Bool
deriving DecidableEq

/-- Splitting a character list on a separator character, keeping empty groups,
exactly as JavaScript `String.prototype.split` with a one-character string. -/
def splitOnChar (sep : Char) : List Char → List (List Char)
  | [] => [[]]
  | c :: t =>
    let r := splitOnChar sep t
    if c == sep then [] :: r
    else
      match r with
      | g :: gs => (c :: g) :: gs
      | [] => [[c]]

/-- Model of JavaScript `s.split(",")`. -/
def jsSplitComma (s : String) : List String :=
  (splitOnChar ',' s.data).map String.mk

/-- The tech-tag transformation in `handleSubmitJob`:
`values.tech.split(",").map((t) => t.trim()).filter((t) => t.length > 0)`. -/
def buildTechArray (tech : String) : List String :=
  ((jsSplitComma tech).map jsTrim).filter (fun t => t.length > 0)

/-- The payload object constructed by `handleSubmitJob` from the form values
(`slug: values.slug || undefined`, `salary: values.salary || null`,
`image: values.image || null`). -/
def handleSubmitJobPayload (v : JobFormValues) : JobPayload :=
  { title := v.title
    company := v.company
    applyUrl := v.applyUrl
    markdown := v.markdown
    tech := ((jsSplitComma v.tech).map jsTrim).filter (fun t => t.length > 0)
    slug := if v.slug = "" then none else some v.slug
    salary := if v.salary = "" then none else some v.salary
    image := if v.image = "" then none else some v.image
    isActive := v.isActive }

/-! ## `getAdminInitials` (`useAdminSession`) -/

/-- The separator class of the regex `/[\s._-]+/`. -/
def isInitialsSep (c : Char) : Bool :=
  isJsWhitespace c || c == '.' || c == '_' || c == '-'

/-- Splitting a character list on a regex class with `+`: maximal separator
runs delimit the groups, and a leading or trailing separator run contributes
an empty group, exactly as JavaScript `String.prototype.split`. -/
def splitSep (isSep : Char → Bool) : List Char → List (List Char)
  | [] => [[]]
  | c :: t =>
    let r := splitSep isSep t
    if isSep c then
      match t with
      | c2 :: _ => if isSep c2 then r else [] :: r
      | [] => [] :: r
    else
      match r with
      | g :: gs => (c :: g) :: gs
      | [] => [[c]]

/-- Model of `username.split(/[\s._-]+/).filter(Boolean)`. -/
def initialsParts (u : String) : List String :=
  ((splitSep isInitialsSep u.data).map String.mk).filter (fun p => p != "")

/-- The one-to-many expansions of Unicode full uppercase mapping (the
`SpecialCasing` entries JavaScript's `toUpperCase` applies), e.g.
`'\u00DF'` uppercases to `"SS"`; every other character maps to a single
character. -/
def jsUpperSpecialTable : List (Char × String) := [
  ('\u00DF', "\u0053\u0053"), ('\u0149', "\u02BC\u004E"), ('\u01F0', "\u004A\u030C"),
  ('\u0390', "\u0399\u0308\u0301"), ('\u03B0', "\u03A5\u0308\u0301"), ('\u0587', "\u0535\u0552"),
  ('\u1E96', "\u0048\u0331"), ('\u1E97', "\u0054\u0308"), ('\u1E98', "\u0057\u030A"),
  ('\u1E99', "\u0059\u030A"), ('\u1E9A', "\u0041\u02BE"), ('\u1F50', "\u03A5\u0313"),
  ('\u1F52', "\u03A5\u0313\u0300"), ('\u1F54', "\u03A5\u0313\u0301"), ('\u1F56', "\u03A5\u0313\u0342"),
  ('\u1F80', "\u1F08\u0399"), ('\u1F81', "\u1F09\u0399"), ('\u1F82', "\u1F0A\u0399"),
  ('\u1F83', "\u1F0B\u0399"), ('\u1F84', "\u1F0C\u0399"), ('\u1F85', "\u1F0D\u0399"),
  ('\u1F86', "\u1F0E\u0399"), ('\u1F87', "\u1F0F\u0399"), ('\u1F88', "\u1F08\u0399"),
  ('\u1F89', "\u1F09\u0399"), ('\u1F8A', "\u1F0A\u0399"), ('\u1F8B', "\u1F0B\u0399"),
  ('\u1F8C', "\u1F0C\u0399"), ('\u1F8D', "\u1F0D\u0399"), ('\u1F8E', "\u1F0E\u0399"),
  ('\u1F8F', "\u1F0F\u0399"), ('\u1F90', "\u1F28\u0399"), ('\u1F91', "\u1F29\u0399"),
  ('\u1F92', "\u1F2A\u0399"), ('\u1F93', "\u1F2B\u0399"), ('\u1F94', "\u1F2C\u0399"),
  ('\u1F95', "\u1F2D\u0399"), ('\u1F96', "\u1F2E\u0399"), ('\u1F97', "\u1F2F\u0399"),
  ('\u1F98', "\u1F28\u0399"), ('\u1F99', "\u1F29\u0399"), ('\u1F9A', "\u1F2A\u0399"),
  ('\u1F9B', "\u1F2B\u0399"), ('\u1F9C', "\u1F2C\u0399"), ('\u1F9D', "\u1F2D\u0399"),
  ('\u1F9E', "\u1F2E\u0399"), ('\u1F9F', "\u1F2F\u0399"), ('\u1FA0', "\u1F68\u0399"),
  ('\u1FA1', "\u1F69\u0399"), ('\u1FA2', "\u1F6A\u0399"), ('\u1FA3', "\u1F6B\u0399"),
  ('\u1FA4', "\u1F6C\u0399"), ('\u1FA5', "\u1F6D\u0399"), ('\u1FA6', "\u1F6E\u0399"),
  ('\u1FA7', "\u1F6F\u0399"), ('\u1FA8', "\u1F68\u0399"), ('\u1FA9', "\u1F69\u0399"),
  ('\u1FAA', "\u1F6A\u0399"), ('\u1FAB', "\u1F6B\u0399"), ('\u1FAC', "\u1F6C\u0399"),
  ('\u1FAD', "\u1F6D\u0399"), ('\u1FAE', "\u1F6E\u0399"), ('\u1FAF', "\u1F6F\u0399"),
  ('\u1FB2', "\u1FBA\u0399"), ('\u1FB3', "\u0391\u0399"), ('\u1FB4', "\u0386\u0399"),
  ('\u1FB6', "\u0391\u0342"), ('\u1FB7', "\u0391\u0342\u0399"), ('\u1FBC', "\u0391\u0399"),
  ('\u1FC2', "\u1FCA\u0399"), ('\u1FC3', "\u0397\u0399"), ('\u1FC4', "\u0389\u0399"),
  ('\u1FC6', "\u0397\u0342"), ('\u1FC7', "\u0397\u0342\u0399"), ('\u1FCC', "\u0397\u0399"),
  ('\u1FD2', "\u0399\u0308\u0300"), ('\u1FD3', "\u0399\u0308\u0301"), ('\u1FD6', "\u0399\u0342"),
  ('\u1FD7', "\u0399\u0308\u0342"), ('\u1FE2', "\u03A5\u0308\u0300"), ('\u1FE3', "\u03A5\u0308\u0301"),
  ('\u1FE4', "\u03A1\u0313"), ('\u1FE6', "\u03A5\u0342"), ('\u1FE7', "\u03A5\u0308\u0342"),
  ('\u1FF2', "\u1FFA\u0399"), ('\u1FF3', "\u03A9\u0399"), ('\u1FF4', "\u038F\u0399"),
  ('\u1FF6', "\u03A9\u0342"), ('\u1FF7', "\u03A9\u0342\u0399"), ('\u1FFC', "\u03A9\u0399"),
  ('\uFB00', "\u0046\u0046"), ('\uFB01', "\u0046\u0049"), ('\uFB02', "\u0046\u004C"),
  ('\uFB03', "\u0046\u0046\u0049"), ('\uFB04', "\u0046\u0046\u004C"), ('\uFB05', "\u0053\u0054"),
  ('\uFB06', "\u0053\u0054"), ('\uFB13', "\u0544\u0546"), ('\uFB14', "\u0544\u0535"),
  ('\uFB15', "\u0544\u053B"), ('\uFB16', "\u054E\u0546"), ('\uFB17', "\u0544\u053D")]

/-- Model of JavaScript `String.prototype.toUpperCase` on one character: the
full case mapping, one-to-many for the special-casing entries above, else the
single simple-uppercase character (`Char.toUpper`, exact on ASCII; non-ASCII
one-to-one mappings are left as the character itself, which no theorem here
relies on). -/
def jsCharToUpper (c : Char) : String :=
  match jsUpperSpecialTable.find? (fun e => e.1 == c) with
  | some e => e.2
  | none => String.mk [c.toUpper]

/-- Model of `part.charAt(0).toUpperCase()`: the full (possibly one-to-many)
uppercase mapping of the first character. -/
def firstCharUpper (p : String) : String :=
  match p.data with
  | [] => ""
  | c :: _ => jsCharToUpper c

/-- Function `getAdminInitials` from `useAdminSession`: `"A"` for a missing (or falsy,
i.e. empty) username, otherwise the joined uppercased first characters of the
first at most two nonempty parts, with `"A"` again when that join is empty. -/
def getAdminInitials (username : Option String) : String :=
  match username with
  | none => "A"
  | some u =>
    if u = "" then "A"
    else
      let initials := String.join (((initialsParts u).take 2).map firstCharUpper)
      if initials = "" then "A" else initials

/-! ## Lemmas about the string helpers -/

theorem startsWithL_refl_append (p r : List Char) : startsWithL (p ++ r) p = true := by
  induction p with
  | nil => simp [startsWithL]
  | cons a t ih => simp [startsWithL, ih]

theorem startsWithL_exists_suffix {l p : List Char} (h : startsWithL l p = true) :
    ∃ r, l = p ++ r := by
  induction p generalizing l with
  | nil => exact ⟨l, rfl⟩
  | cons b t ih =>
    cases l with
    | nil => simp [startsWithL] at h
    | cons a s =>
      simp only [startsWithL, Bool.and_eq_true, beq_iff_eq] at h
      obtain ⟨r, hr⟩ := ih h.2
      exact ⟨r, by simp [h.1, hr]⟩

theorem startsWithL_append_left (a l p : List Char) :
    startsWithL (a ++ l) (a ++ p) = startsWithL l p := by
  induction a with
  | nil => rfl
  | cons c t ih => simp [startsWithL, ih]

theorem String.data_append_eq (a b : String) : (a ++ b).data = a.data ++ b.data := by
  cases a; cases b; rfl

theorem String.mk_data (s : String) : String.mk s.data = s := by
  cases s; rfl

theorem jsEndsWith_append (l p : String) : jsEndsWith (l ++ p) p = true := by
  unfold jsEndsWith
  rw [String.data_append_eq, List.reverse_append]
  exact startsWithL_refl_append _ _

theorem stripTrailingSlashes_of_endsWith_api {s : String}
    (h : jsEndsWith s "/api" = true) : stripTrailingSlashes s = s := by
  unfold jsEndsWith at h
  obtain ⟨r, hr⟩ := startsWithL_exists_suffix h
  unfold stripTrailingSlashes
  rw [hr]
  have : List.dropWhile (· == '/') ("/api".data.reverse ++ r) =
      "/api".data.reverse ++ r := by
    simp [List.dropWhile]
  rw [this, ← hr]
  simp [String.mk_data]

theorem jsEndsWith_normalizeBase (s : String) :
    jsEndsWith (normalizeBase s) "/api" = true := by
  unfold normalizeBase
  by_cases h : jsEndsWith (stripTrailingSlashes s) "/api" = true
  · simp [h]
  · simp only [h, Bool.false_eq_true, if_neg, Bool.not_eq_true] at *
    simp [h, jsEndsWith_append]

theorem normalizeBase_of_endsWith_api {t : String}
    (h : jsEndsWith t "/api" = true) : normalizeBase t = t := by
  simp [normalizeBase, stripTrailingSlashes_of_endsWith_api h, h]

theorem normalizeBase_idem (s : String) :
    normalizeBase (normalizeBase s) = normalizeBase s :=
  normalizeBase_of_endsWith_api (jsEndsWith_normalizeBase s)

/-- The normalization never manufactures a duplicated `/api/api` ending: if its
result ends with `/api/api`, the slash-stripped input already did. -/
theorem normalizeBase_no_new_double_api {s : String}
    (h : jsEndsWith (normalizeBase s) "/api/api" = true) :
    jsEndsWith (stripTrailingSlashes s) "/api/api" = true := by
  by_cases hb : jsEndsWith (stripTrailingSlashes s) "/api" = true
  · unfold normalizeBase at h
    rw [if_pos hb] at h
    exact h
  · exfalso
    unfold normalizeBase at h
    rw [if_neg hb] at h
    unfold jsEndsWith at h hb
    rw [String.data_append_eq, List.reverse_append] at h
    have heq : ("/api/api".data.reverse : List Char) =
        "/api".data.reverse ++ "/api".data.reverse := by decide
    rw [heq, startsWithL_append_left] at h
    exact hb h

theorem jsEndsWith_api_ne_empty {t : String}
    (h : jsEndsWith t "/api" = true) : t ≠ "" := by
  intro he
  subst he
  simp [jsEndsWith, startsWithL] at h

theorem computeApiBase_ne_empty (e1 e2 : Option String) :
    computeApiBase e1 e2 ≠ "" :=
  jsEndsWith_api_ne_empty (jsEndsWith_normalizeBase _)

theorem startsWithL_of_append_pattern {l p q : List Char}
    (h : startsWithL l (p ++ q) = true) : startsWithL l p = true := by
  induction p generalizing l with
  | nil => simp [startsWithL]
  | cons b t ih =>
    cases l with
    | nil => simp [startsWithL] at h
    | cons a s =>
      simp only [List.cons_append, startsWithL, Bool.and_eq_true] at h ⊢
      exact ⟨h.1, ih h.2⟩

theorem jsStartsWith_slash_of_double {p : String}
    (h : jsStartsWith p "//" = true) : jsStartsWith p "/" = true := by
  unfold jsStartsWith at h ⊢
  have : ("//".data : List Char) = "/".data ++ "/".data := by decide
  rw [this] at h
  exact startsWithL_of_append_pattern h

theorem jsStartsWith_slash_append (p : String) :
    jsStartsWith ("/" ++ p) "/" = true := by
  unfold jsStartsWith
  rw [String.data_append_eq]
  exact startsWithL_refl_append _ _

theorem jsStartsWith_slash_append_double (p : String) :
    jsStartsWith ("/" ++ p) "//" = jsStartsWith p "/" := by
  unfold jsStartsWith
  rw [String.data_append_eq]
  have h1 : ("/".data : List Char) = ['/'] := by decide
  have h2 : ("//".data : List Char) = ['/', '/'] := by decide
  rw [h1, h2]
  simp [startsWithL]

/-! ## Claim theorems -/

/-- C1: the spec says that with no configured base URL every `apiFetch` call
fails fast with a configuration error before any network I/O. The code's own
guard (`if (!API_BASE) throw new Error("Missing BACKEND_API environment
variable")`) shows that intent, but the guard is dead: with both environment
variables empty the computed `API_BASE` is the non-empty string `"/api"`, so
`resolveUrl` succeeds (here at the path `"/jobs"`, yielding `"/api/jobs"`) and
the network request proceeds. In fact `resolveUrl` succeeds for every
environment and path, so the configuration error can never be raised. -/
theorem c1_missing_base_guard_is_dead :
    computeApiBase none none = "/api" ∧
    resolveUrl (computeApiBase none none) "/jobs" = .ok "/api/jobs" ∧
    ∀ e1 e2 path, ∃ u, resolveUrl (computeApiBase e1 e2) path = .ok u := by
  refine ⟨by decide, by rfl, fun e1 e2 path => ?_⟩
  unfold resolveUrl
  rw [if_neg (computeApiBase_ne_empty e1 e2)]
  exact ⟨_, rfl⟩

/-- C2 counterexample: for the configured base URL `"https://x/api/api"` the
normalization returns the input unchanged, and the result ends in two `/api`
segments, not exactly one — refuting the claim's universally quantified
"always ends in exactly one `/api`". -/
theorem c2_counterexample :
    normalizeBase "https://x/api/api" = "https://x/api/api" ∧
    ¬ endsInExactlyOneApi (normalizeBase "https://x/api/api") := by
  constructor
  · decide
  · intro h
    have h2 := h.2
    revert h2
    decide

/-- C2 (amended): base-URL normalization is idempotent for every input, its
result always ends with `/api`, and it never introduces a duplicated
`/api/api` ending — the result ends with `/api/api` only when the
slash-stripped input already did; whenever the slash-stripped input does not
end in `/api/api`, the result ends in exactly one `/api` segment. -/
theorem c2_normalizeBase_idem_and_api_suffix :
    (∀ s, normalizeBase (normalizeBase s) = normalizeBase s) ∧
    (∀ s, jsEndsWith (normalizeBase s) "/api" = true) ∧
    (∀ s, jsEndsWith (normalizeBase s) "/api/api" = true →
      jsEndsWith (stripTrailingSlashes s) "/api/api" = true) ∧
    (∀ s, jsEndsWith (stripTrailingSlashes s) "/api/api" = false →
      endsInExactlyOneApi (normalizeBase s)) := by
  refine ⟨normalizeBase_idem, jsEndsWith_normalizeBase,
    fun s h => normalizeBase_no_new_double_api h, fun s h => ?_⟩
  refine ⟨jsEndsWith_normalizeBase s, ?_⟩
  by_cases hd : jsEndsWith (normalizeBase s) "/api/api" = true
  · exact absurd (normalizeBase_no_new_double_api hd) (by simp [h])
  · simpa using hd

/-- C2 witness: a concrete run of the amended theorem at `"https://x/"`. -/
theorem c2_witness : endsInExactlyOneApi (normalizeBase "https://x/") :=
  c2_normalizeBase_idem_and_api_suffix.2.2.2 "https://x/" (by decide)

/-- C8 counterexample: the path `"//x"` already starts with a slash, so
`resolveUrl` keeps it unchanged — the normalized path begins with two leading
slashes, refuting "begins with exactly one leading slash" as a universal
statement. -/
theorem c8_counterexample :
    normalizePath "//x" = "//x" ∧
    ¬ startsWithExactlyOneSlash (normalizePath "//x") := by
  constructor
  · decide
  · intro h
    have h2 := h.2
    revert h2
    decide

/-- C8 (amended): `resolveUrl` normalizes the path to begin with at least one
leading slash — a path already starting with a slash is kept unchanged
(preserving any run of leading slashes) and a slash is prepended otherwise —
so the result begins with exactly one leading slash if and only if the input
does not itself begin with two; the resolved URL is the base followed by the
normalized path whenever the base is non-empty. -/
theorem c8_normalizePath_leading_slash :
    (∀ p, jsStartsWith (normalizePath p) "/" = true) ∧
    (∀ p, jsStartsWith p "/" = true → normalizePath p = p) ∧
    (∀ p, jsStartsWith p "/" = false → normalizePath p = "/" ++ p) ∧
    (∀ p, startsWithExactlyOneSlash (normalizePath p) ↔ jsStartsWith p "//" = false) ∧
    (∀ apiBase p, apiBase ≠ "" →
      resolveUrl apiBase p = .ok (apiBase ++ normalizePath p)) := by
  have hone : ∀ p, jsStartsWith (normalizePath p) "/" = true := by
    intro p
    unfold normalizePath
    by_cases h : jsStartsWith p "/" = true
    · simp [h]
    · simp only [Bool.not_eq_true] at h
      simp [h, jsStartsWith_slash_append]
  refine ⟨hone, ?_, ?_, ?_, ?_⟩
  · intro p h
    simp [normalizePath, h]
  · intro p h
    simp [normalizePath, h]
  · intro p
    constructor
    · intro h
      by_cases hp : jsStartsWith p "/" = true
      · have := h.2
        rwa [normalizePath, if_pos hp] at this
      · simp only [Bool.not_eq_true] at hp
        by_contra hpp
        simp only [Bool.not_eq_false] at hpp
        exact absurd (jsStartsWith_slash_of_double hpp) (by simp [hp])
    · intro h
      by_cases hp : jsStartsWith p "/" = true
      · exact ⟨hone p, by rwa [normalizePath, if_pos hp]⟩
      · simp only [Bool.not_eq_true] at hp
        refine ⟨hone p, ?_⟩
        rw [normalizePath, if_neg (by simp [hp]), jsStartsWith_slash_append_double]
        exact hp
  · intro apiBase p h
    unfold resolveUrl
    rw [if_neg h]

/-- C8 witness: a concrete run of the amended theorem at base
`"https://h/api"` and path `"jobs"`. -/
theorem c8_witness :
    resolveUrl "https://h/api" "jobs" = .ok ("https://h/api" ++ normalizePath "jobs") :=
  c8_normalizePath_leading_slash.2.2.2.2 "https://h/api" "jobs" (by decide)

/-- C3 counterexample: a response body with `success: true` and a present but
empty `admin.username` refutes the claim's "raises ... exactly when success is
falsy or `admin.username` is missing": neither condition holds, yet
`loginAdmin` raises (the empty string is falsy in the `!data.admin?.username`
test). -/
theorem c3_counterexample :
    (LoginResponse.mk true (some ⟨""⟩) none).success = true ∧
    (LoginResponse.mk true (some ⟨""⟩) none).admin ≠ none ∧
    loginAdminLogic (some (LoginResponse.mk true (some ⟨""⟩) none)) =
      .error ⟨"Failed to sign in", 400⟩ :=
  ⟨rfl, by simp, rfl⟩

/-- C3 (amended): `loginAdmin` raises an error with status 400 and message
`data?.message || "Failed to sign in"` exactly when `success` is falsy, or
`admin` is missing, or `admin.username` is missing or empty (the empty string
being falsy), regardless of the transport-level status; the chosen message is
the backend's message when that is a non-empty string and the default
otherwise; on a genuine success it returns the admin identity. The claim's two
concrete examples hold as stated. -/
theorem c3_loginAdmin_error_iff :
    (∀ d a, d.admin = some a → d.success = true → a.username ≠ "" →
      loginAdminLogic (some d) = .ok a) ∧
    (∀ d, (d.success = false ∨ d.admin = none ∨ ∃ a, d.admin = some a ∧ a.username = "") ↔
      loginAdminLogic (some d) = .error ⟨loginFailMessage (some d), 400⟩) ∧
    (∀ d m, d.message = some m → m ≠ "" → loginFailMessage (some d) = m) ∧
    (∀ d, (d.message = none ∨ d.message = some "") →
      loginFailMessage (some d) = "Failed to sign in") ∧
    loginAdminLogic (some ⟨false, none, some "bad credentials"⟩) =
      .error ⟨"bad credentials", 400⟩ ∧
    loginAdminLogic (some ⟨true, some ⟨"a"⟩, none⟩) = .ok ⟨"a"⟩ := by
  refine ⟨?_, ?_, ?_, ?_, rfl, rfl⟩
  · intro d a ha hs hu
    obtain ⟨succ, admin, msg⟩ := d
    simp only at ha hs
    subst ha hs
    simp [loginAdminLogic, hu]
  · intro d
    obtain ⟨succ, admin, msg⟩ := d
    cases admin with
    | none => cases succ <;> simp [loginAdminLogic]
    | some a =>
      cases succ <;> by_cases hu : a.username = "" <;>
        simp [loginAdminLogic, hu]
  · intro d m hm hne
    obtain ⟨succ, admin, msg⟩ := d
    simp only at hm
    subst hm
    simp [loginFailMessage, jsOrStr, hne]
  · intro d hm
    obtain ⟨succ, admin, msg⟩ := d
    simp only at hm
    rcases hm with h | h <;> subst h <;> simp [loginFailMessage, jsOrStr]

/-- C3 witness: a concrete run of the success clause of the amended theorem. -/
theorem c3_witness :
    loginAdminLogic (some ⟨true, some ⟨"bob"⟩, none⟩) = .ok ⟨"bob"⟩ :=
  c3_loginAdmin_error_iff.1 ⟨true, some ⟨"bob"⟩, none⟩ ⟨"bob"⟩ rfl rfl (by decide)

/-- C4: on every non-2xx response the transport adapter raises an `ApiError`
carrying the numeric HTTP status, with the message chosen by the documented
fallback order: the JSON payload's `error` field when the body was decoded as
JSON and is an object with an `error` key (stringified, here a non-empty
string), else the status text, else the generic `"Unexpected API error"`.
The claim's two 404 examples hold: a JSON `{error: "Not found"}` body raises
`"Not found"`, while a plain-text body raises the status text, not the body. -/
theorem c4_apiFetch_error_fallback :
    (∀ r, responseOk r = false → ∃ m, apiFetchOutcome r = .error ⟨m, r.status⟩) ∧
    (∀ r fs s, responseOk r = false → isJsonResponse r = true →
      r.jsonBody = .obj fs → jsHasKey (.obj fs) "error" = true →
      jsGetKey (.obj fs) "error" = .str s → s ≠ "" →
      apiFetchOutcome r = .error ⟨s, r.status⟩) ∧
    (∀ r, responseOk r = false → isJsonResponse r = false → r.statusText ≠ "" →
      apiFetchOutcome r = .error ⟨r.statusText, r.status⟩) ∧
    (∀ r, responseOk r = false → isJsonResponse r = true →
      jsHasKey r.jsonBody "error" = false → r.statusText ≠ "" →
      apiFetchOutcome r = .error ⟨r.statusText, r.status⟩) ∧
    (∀ r, responseOk r = false → isJsonResponse r = false → r.statusText = "" →
      apiFetchOutcome r = .error ⟨"Unexpected API error", r.status⟩) ∧
    apiFetchOutcome ⟨404, "Not Found", some "application/json",
      .obj [("error", .str "Not found")], ""⟩ = .error ⟨"Not found", 404⟩ ∧
    apiFetchOutcome ⟨404, "Not Found", some "text/plain", .null,
      "Internal Server Error"⟩ = .error ⟨"Not Found", 404⟩ := by
  refine ⟨?_, ?_, ?_, ?_, ?_, rfl, rfl⟩
  · intro r h
    simp only [apiFetchOutcome, h, Bool.false_eq_true, if_false]
    exact ⟨_, rfl⟩
  · intro r fs s h hj hb hk hg hs
    have hss : jsString (JsValue.str s) = s := rfl
    simp [apiFetchOutcome, decodedPayload, h, hj, hb, hk, hg,
      jsTypeofObject, jsIsNull, jsOrStr, hss, hs]
  · intro r h hj hst
    simp [apiFetchOutcome, decodedPayload, h, hj, jsOrStr, hst]
  · intro r h hj hk hst
    simp [apiFetchOutcome, decodedPayload, h, hj, hk, jsOrStr, hst]
  · intro r h hj hst
    simp [apiFetchOutcome, decodedPayload, h, hj, jsOrStr, hst]

/-- C4 witness: a concrete run of the plain-text clause: a 404 with a
`text/plain` body raises the status text. -/
theorem c4_witness :
    apiFetchOutcome ⟨404, "Gone Fishing", some "text/plain", .null, "oops"⟩ =
      .error ⟨"Gone Fishing", 404⟩ :=
  c4_apiFetch_error_fallback.2.2.1
    ⟨404, "Gone Fishing", some "text/plain", .null, "oops"⟩ rfl rfl (by decide)

/-- C5: `fetchJobs` omits an unset parameter from the query entirely, but
includes `offset` whenever it is a number — including zero — so `fetchJobs({})`
requests `/jobs` while `fetchJobs({offset: 0})` requests `/jobs?offset=0`,
two different query strings; in general the built parameter list carries an
`offset` pair exactly when `offset` is set, a `limit` pair only when `limit`
is set (and truthy), and no pair for an unset parameter. -/
theorem c5_fetchJobs_offset_zero :
    fetchJobsEndpoint ⟨none, none⟩ = "/jobs" ∧
    fetchJobsEndpoint ⟨none, some 0⟩ = "/jobs?offset=0" ∧
    fetchJobsEndpoint ⟨none, none⟩ ≠ fetchJobsEndpoint ⟨none, some 0⟩ ∧
    (∀ p k, p.offset = some k → ("offset", toString k) ∈ buildJobsSearchParams p) ∧
    (∀ p v, p.limit = some v → v ≠ 0 → ("limit", toString v) ∈ buildJobsSearchParams p) ∧
    (∀ p, p.offset = none → ∀ kv ∈ buildJobsSearchParams p, kv.1 ≠ "offset") ∧
    (∀ p, p.limit = none → ∀ kv ∈ buildJobsSearchParams p, kv.1 ≠ "limit") := by
  refine ⟨by decide, by decide, by decide, ?_, ?_, ?_, ?_⟩
  · intro p k h
    obtain ⟨lim, off⟩ := p
    simp only at h
    subst h
    cases lim with
    | none => simp [buildJobsSearchParams, urlParamsSet]
    | some v =>
      by_cases hv : v = 0
      · simp [buildJobsSearchParams, urlParamsSet, hv]
      · simp [buildJobsSearchParams, urlParamsSet, hv]
  · intro p v h hv
    obtain ⟨lim, off⟩ := p
    simp only at h
    subst h
    cases off with
    | none => simp [buildJobsSearchParams, urlParamsSet, hv]
    | some k => simp [buildJobsSearchParams, urlParamsSet, hv]
  · intro p h kv hmem
    obtain ⟨lim, off⟩ := p
    simp only at h
    subst h
    cases lim with
    | none => simp [buildJobsSearchParams] at hmem
    | some v =>
      by_cases hv : v = 0
      · simp [buildJobsSearchParams, urlParamsSet, hv] at hmem
      · simp [buildJobsSearchParams, urlParamsSet, hv] at hmem
        subst hmem
        simp
  · intro p h kv hmem
    obtain ⟨lim, off⟩ := p
    simp only at h
    subst h
    cases off with
    | none => simp [buildJobsSearchParams] at hmem
    | some k =>
      simp [buildJobsSearchParams, urlParamsSet] at hmem
      subst hmem
      simp

/-- C5 witness: a concrete run of the offset clause at `offset = 3`. -/
theorem c5_witness :
    ("offset", toString (3 : Int)) ∈ buildJobsSearchParams ⟨none, some 3⟩ :=
  c5_fetchJobs_offset_zero.2.2.2.1 ⟨none, some 3⟩ 3 rfl

/-- C6: the hydration transition is total (the `try`/`catch`/`finally`
structure is embedded as a total function — no storage content or storage
failure escapes it) and always ends hydrated; a corrupt stored record
(`JSON.parse` throws), a storage access failure, and an absent record all end
in the hydrated-unauthenticated state; every hydration from the initial state
ends in one of the two hydrated states. -/
theorem c6_hydrate_total_and_hydrated :
    (∀ read s, (hydrate read s).hydrated = true) ∧
    hydrate (.ok .corrupt) initialStoreState = ⟨none, true⟩ ∧
    hydrate .failure initialStoreState = ⟨none, true⟩ ∧
    hydrate (.ok .absent) initialStoreState = ⟨none, true⟩ ∧
    (∀ read, hydrate read initialStoreState = ⟨none, true⟩ ∨
      ∃ v, hydrate read initialStoreState = ⟨some v, true⟩) := by
  refine ⟨?_, rfl, rfl, rfl, ?_⟩
  · intro read s
    cases read with
    | failure => rfl
    | ok c =>
      cases c with
      | absent => rfl
      | corrupt => rfl
      | json v => rfl
  · intro read
    cases read with
    | failure => exact .inl rfl
    | ok c =>
      cases c with
      | absent => exact .inl rfl
      | corrupt => exact .inl rfl
      | json v =>
        by_cases h : jsTruthyOpt (jsFieldOpt v "username") = true
        · exact .inr ⟨v, by simp [hydrate, initialStoreState, h]⟩
        · simp only [Bool.not_eq_true] at h
          exact .inl (by simp [hydrate, initialStoreState, h])

/-- C7: from any hydrated state, `setSession` with a non-null session writes
it to storage and yields hydrated-authenticated; `setSession(null)` removes
the persisted record and yields hydrated-unauthenticated; and after
`setSession({username: "x"})` followed by `setSession(null)` the storage slot
is empty, so a fresh `hydrate` from the initial state ends
hydrated-unauthenticated. -/
theorem c7_setSession_storage_roundtrip :
    (∀ sys s, sys.store.hydrated = true →
      (saveSession (some s) sys).storage = .json s ∧
      (saveSession (some s) sys).store.admin = some s ∧
      isAuthenticated (saveSession (some s) sys).store = true) ∧
    (∀ sys, sys.store.hydrated = true →
      (saveSession none sys).storage = .absent ∧
      (saveSession none sys).store.admin = none ∧
      (saveSession none sys).store.hydrated = true ∧
      isAuthenticated (saveSession none sys).store = false) ∧
    (∀ sys,
      (saveSession none
        (saveSession (some (JsValue.obj [("username", JsValue.str "x")])) sys)).storage
          = .absent ∧
      hydrate (.ok (saveSession none
        (saveSession (some (JsValue.obj [("username", JsValue.str "x")])) sys)).storage)
          initialStoreState = ⟨none, true⟩) := by
  refine ⟨?_, ?_, ?_⟩
  · intro sys s h
    exact ⟨rfl, rfl, by simp [saveSession, isAuthenticated, h]⟩
  · intro sys h
    exact ⟨rfl, rfl, by simp [saveSession, h], by simp [saveSession, isAuthenticated]⟩
  · intro sys
    exact ⟨rfl, rfl⟩

/-- C7 witness: a concrete run of the two `setSession` clauses from a
hydrated unauthenticated system. -/
theorem c7_witness :
    (saveSession (some (JsValue.obj [("username", JsValue.str "x")]))
      ⟨⟨none, true⟩, .absent⟩).storage = .json (JsValue.obj [("username", JsValue.str "x")]) ∧
    isAuthenticated (saveSession (some (JsValue.obj [("username", JsValue.str "x")]))
      ⟨⟨none, true⟩, .absent⟩).store = true :=
  ⟨(c7_setSession_storage_roundtrip.1 ⟨⟨none, true⟩, .absent⟩
      (JsValue.obj [("username", JsValue.str "x")]) rfl).1,
    (c7_setSession_storage_roundtrip.1 ⟨⟨none, true⟩, .absent⟩
      (JsValue.obj [("username", JsValue.str "x")]) rfl).2.2⟩

/-! ## Lemmas for the trim and initials transformations -/

theorem dropWhile_cons_of_neg {α : Type} {p : α → Bool} {c : α} {t : List α}
    (h : p c = false) : List.dropWhile p (c :: t) = c :: t := by
  simp [List.dropWhile, h]

theorem jsTrim_data (s : String) : (jsTrim s).data =
    ((s.data.dropWhile isJsWhitespace).reverse.dropWhile isJsWhitespace).reverse := rfl

theorem dropWhile_reverse_dropWhile {A : List Char}
    (hAi : A.dropWhile isJsWhitespace = A) :
    (A.reverse.dropWhile isJsWhitespace).reverse.dropWhile isJsWhitespace =
      (A.reverse.dropWhile isJsWhitespace).reverse := by
  have hsplit : A.reverse.takeWhile isJsWhitespace ++
      A.reverse.dropWhile isJsWhitespace = A.reverse :=
    List.takeWhile_append_dropWhile _ _
  have hA2 : A = (A.reverse.dropWhile isJsWhitespace).reverse ++
      (A.reverse.takeWhile isJsWhitespace).reverse := by
    have h3 := congrArg List.reverse hsplit
    rw [List.reverse_append, List.reverse_reverse] at h3
    exact h3.symm
  cases hBr : (A.reverse.dropWhile isJsWhitespace).reverse with
  | nil => rfl
  | cons c t =>
    have hc : isJsWhitespace c = false := by
      by_contra hcc
      rw [Bool.not_eq_false] at hcc
      rw [hBr, List.cons_append] at hA2
      have hAi2 := hAi
      rw [hA2, List.dropWhile_cons, if_pos hcc] at hAi2
      have hlen := congrArg List.length hAi2
      have hle := (List.dropWhile_sublist
        (l := t ++ (A.reverse.takeWhile isJsWhitespace).reverse) isJsWhitespace).length_le
      simp only [List.length_cons] at hlen
      omega
    exact dropWhile_cons_of_neg hc

theorem jsTrim_no_leading_ws (s : String) :
    (jsTrim s).data.dropWhile isJsWhitespace = (jsTrim s).data := by
  rw [jsTrim_data]
  exact dropWhile_reverse_dropWhile (List.dropWhile_idempotent _ _)

theorem jsTrim_idem (s : String) : jsTrim (jsTrim s) = jsTrim s := by
  have h1 := jsTrim_no_leading_ws s
  show String.mk (((jsTrim s).data.dropWhile isJsWhitespace).reverse.dropWhile
    isJsWhitespace).reverse = jsTrim s
  rw [h1]
  have h2 : (jsTrim s).data.reverse.dropWhile isJsWhitespace = (jsTrim s).data.reverse := by
    rw [jsTrim_data, List.reverse_reverse]
    exact List.dropWhile_idempotent _ _
  rw [h2, List.reverse_reverse, String.mk_data]

theorem buildTechArray_mem {s t : String} (h : t ∈ buildTechArray s) :
    t.length > 0 ∧ jsTrim t = t ∧ ∃ piece ∈ jsSplitComma s, t = jsTrim piece := by
  unfold buildTechArray at h
  rw [List.mem_filter] at h
  obtain ⟨hmap, hpred⟩ := h
  rw [List.mem_map] at hmap
  obtain ⟨piece, hp, hpt⟩ := hmap
  refine ⟨by simpa using hpred, ?_, piece, hp, hpt.symm⟩
  rw [← hpt]
  exact jsTrim_idem piece

theorem strJoin_cons (a : String) (l : List String) :
    String.join (a :: l) = a ++ String.join l := by
  cases a with
  | mk d =>
    rw [String.join_eq, String.join_eq]
    rfl

theorem str_eq_empty_of_length {s : String} (h : s.length = 0) : s = "" := by
  cases s with
  | mk d =>
    cases d with
    | nil => rfl
    | cons c t => simp [String.length] at h

theorem str_length_pos_of_ne_empty {s : String} (h : s ≠ "") : 0 < s.length := by
  by_contra hc
  simp only [Nat.not_lt, Nat.le_zero] at hc
  exact h (str_eq_empty_of_length hc)

theorem append_ne_empty_left {a b : String} (h : a ≠ "") : a ++ b ≠ "" := by
  intro hc
  have hl := congrArg String.length hc
  rw [String.length_append] at hl
  have ha := str_length_pos_of_ne_empty h
  have h0 : ("" : String).length = 0 := rfl
  rw [h0] at hl
  omega

theorem jsUpperSpecialTable_sound :
    ∀ e ∈ jsUpperSpecialTable, e.2 ≠ "" ∧ e.2.length ≤ 3 ∧ 128 ≤ e.1.toNat := by
  decide

theorem jsCharToUpper_ne_empty (c : Char) : jsCharToUpper c ≠ "" := by
  unfold jsCharToUpper
  cases hf : jsUpperSpecialTable.find? (fun e => e.1 == c) with
  | none =>
    intro hcon
    have := congrArg String.data hcon
    simp at this
  | some e =>
    exact (jsUpperSpecialTable_sound e (List.mem_of_find?_eq_some hf)).1

theorem jsCharToUpper_length_le (c : Char) : (jsCharToUpper c).length ≤ 3 := by
  unfold jsCharToUpper
  cases hf : jsUpperSpecialTable.find? (fun e => e.1 == c) with
  | none =>
    show (1 : Nat) ≤ 3
    decide
  | some e =>
    exact (jsUpperSpecialTable_sound e (List.mem_of_find?_eq_some hf)).2.1

theorem jsCharToUpper_ascii_single {c : Char} (h : c.toNat < 128) :
    (jsCharToUpper c).length ≤ 1 := by
  unfold jsCharToUpper
  cases hf : jsUpperSpecialTable.find? (fun e => e.1 == c) with
  | none =>
    show (1 : Nat) ≤ 1
    decide
  | some e =>
    exfalso
    have hp := List.find?_some hf
    have he : e.1 = c := by simpa using hp
    have hge := (jsUpperSpecialTable_sound e (List.mem_of_find?_eq_some hf)).2.2
    rw [he] at hge
    omega

theorem firstCharUpper_length_le (p : String) : (firstCharUpper p).length ≤ 3 := by
  unfold firstCharUpper
  cases hd : p.data with
  | nil => decide
  | cons c t => exact jsCharToUpper_length_le c

theorem firstCharUpper_ne_empty {p : String} (h : p ≠ "") : firstCharUpper p ≠ "" := by
  unfold firstCharUpper
  cases hd : p.data with
  | nil =>
    exfalso
    apply h
    have := String.mk_data p
    rw [hd] at this
    exact this.symm
  | cons c t => exact jsCharToUpper_ne_empty c

theorem initialsParts_mem_ne_empty {u p : String} (h : p ∈ initialsParts u) : p ≠ "" := by
  unfold initialsParts at h
  rw [List.mem_filter] at h
  simpa using h.2

theorem initials_join_length_le (parts : List String) :
    (String.join ((parts.take 2).map firstCharUpper)).length ≤ 6 := by
  match parts with
  | [] => decide
  | [p] =>
    have h1 := firstCharUpper_length_le p
    have h0 : (String.join ([] : List String)).length = 0 := rfl
    show (String.join [firstCharUpper p]).length ≤ 6
    rw [strJoin_cons, String.length_append]
    omega
  | p :: q :: t =>
    have h1 := firstCharUpper_length_le p
    have h2 := firstCharUpper_length_le q
    have h0 : (String.join ([] : List String)).length = 0 := rfl
    show (String.join [firstCharUpper p, firstCharUpper q]).length ≤ 6
    rw [strJoin_cons, strJoin_cons, String.length_append, String.length_append]
    omega

theorem initials_join_length_le_two (parts : List String)
    (h : ∀ p ∈ parts.take 2, (firstCharUpper p).length ≤ 1) :
    (String.join ((parts.take 2).map firstCharUpper)).length ≤ 2 := by
  match parts with
  | [] => decide
  | [p] =>
    have h1 := h p (by simp)
    have h0 : (String.join ([] : List String)).length = 0 := rfl
    show (String.join [firstCharUpper p]).length ≤ 2
    rw [strJoin_cons, String.length_append]
    omega
  | p :: q :: t =>
    have h1 := h p (by simp)
    have h2 := h q (by simp)
    have h0 : (String.join ([] : List String)).length = 0 := rfl
    show (String.join [firstCharUpper p, firstCharUpper q]).length ≤ 2
    rw [strJoin_cons, strJoin_cons, String.length_append, String.length_append]
    omega

theorem getAdminInitials_some_reduce (s : String) (hs : s ≠ "") :
    getAdminInitials (some s) =
      (if String.join (((initialsParts s).take 2).map firstCharUpper) = "" then "A"
       else String.join (((initialsParts s).take 2).map firstCharUpper)) := by
  show (if s = "" then "A"
    else
      let initials := String.join (((initialsParts s).take 2).map firstCharUpper)
      if initials = "" then "A" else initials) = _
  rw [if_neg hs]

/-- C9: the tech field of the payload constructed by `handleSubmitJob` is
exactly the pure transformation of the comma-separated form string — split on
commas, each entry trimmed, empty entries removed: every resulting tag is a
nonempty trimmed piece of the comma split, and the construction is verifiable
on concrete form values independently of any network call. -/
theorem c9_tech_payload_transformation :
    (∀ v : JobFormValues, (handleSubmitJobPayload v).tech = buildTechArray v.tech) ∧
    (∀ s t, t ∈ buildTechArray s →
      t.length > 0 ∧ jsTrim t = t ∧ ∃ piece ∈ jsSplitComma s, t = jsTrim piece) ∧
    buildTechArray "a, b , ,c," = ["a", "b", "c"] ∧
    (handleSubmitJobPayload
      ⟨"T", "", "Co", "https://u", "", "", " go, rust ,, ", "body", true⟩).tech
        = ["go", "rust"] ∧
    handleSubmitJobPayload ⟨"T", "", "Co", "https://u", "", "", "go,rust", "body", true⟩ =
      ⟨"T", "Co", "https://u", "body", ["go", "rust"], none, none, none, true⟩ :=
  ⟨fun _ => rfl, fun _ _ h => buildTechArray_mem h, by decide, by decide, by decide⟩

/-- C9 witness: a concrete run of the membership clause at the form string
`" go, rust "` and the produced tag `"go"`. -/
theorem c9_witness :
    ("go".length > 0 ∧ jsTrim "go" = "go" ∧
      ∃ piece ∈ jsSplitComma " go, rust ", "go" = jsTrim piece) :=
  c9_tech_payload_transformation.2.1 " go, rust " "go" (by decide)

/-- C10 counterexample: for the username `"\u00DF \u00DF"` the two parts both
begin with `'\u00DF'`, whose full uppercase mapping is `"SS"`, so the real
`getAdminInitials` returns `"SSSS"` — four characters — refuting the claim's
"the result is at most two characters" at a concrete input. -/
theorem c10_counterexample :
    getAdminInitials (some "\u00DF \u00DF") = "SSSS" ∧
    (getAdminInitials (some "\u00DF \u00DF")).length = 4 ∧
    ¬ (getAdminInitials (some "\u00DF \u00DF")).length ≤ 2 := by
  refine ⟨by decide, by decide, by decide⟩

/-- C10 (amended): `getAdminInitials` always returns a non-empty string: `"A"`
when the username is missing or empty or has no nonempty parts after splitting
on whitespace, dots, underscores and hyphens, and otherwise the concatenated
full uppercase mappings of the first characters of at most the first two
parts — at most two initials, each expanding to at most three characters (so
at most six characters in total), and at most two characters whenever both
mapped initials are single characters, as is the case for every ASCII
character. -/
theorem c10_getAdminInitials_amended :
    (∀ u, getAdminInitials u ≠ "") ∧
    (∀ u, (getAdminInitials u).length ≤ 6) ∧
    getAdminInitials none = "A" ∧
    getAdminInitials (some "") = "A" ∧
    (∀ s, s ≠ "" → initialsParts s = [] → getAdminInitials (some s) = "A") ∧
    (∀ s, s ≠ "" → initialsParts s ≠ [] →
      getAdminInitials (some s) =
        String.join (((initialsParts s).take 2).map firstCharUpper)) ∧
    (∀ s, s ≠ "" → (∀ p ∈ (initialsParts s).take 2, (firstCharUpper p).length ≤ 1) →
      (getAdminInitials (some s)).length ≤ 2) ∧
    (∀ c : Char, c.toNat < 128 → (jsCharToUpper c).length ≤ 1) := by
  refine ⟨?_, ?_, rfl, rfl, ?_, ?_, ?_, fun c h => jsCharToUpper_ascii_single h⟩
  · intro u
    cases u with
    | none => decide
    | some s =>
      by_cases hs : s = ""
      · subst hs; decide
      · rw [getAdminInitials_some_reduce s hs]
        by_cases hi : String.join (((initialsParts s).take 2).map firstCharUpper) = ""
        · rw [if_pos hi]; decide
        · rw [if_neg hi]; exact hi
  · intro u
    cases u with
    | none => decide
    | some s =>
      by_cases hs : s = ""
      · subst hs; decide
      · rw [getAdminInitials_some_reduce s hs]
        by_cases hi : String.join (((initialsParts s).take 2).map firstCharUpper) = ""
        · rw [if_pos hi]; decide
        · rw [if_neg hi]; exact initials_join_length_le _
  · intro s hs hp
    rw [getAdminInitials_some_reduce s hs, hp]
    rfl
  · intro s hs hp
    rw [getAdminInitials_some_reduce s hs]
    cases hparts : initialsParts s with
    | nil => exact absurd hparts hp
    | cons p rest =>
      have hpne : p ≠ "" :=
        initialsParts_mem_ne_empty (u := s) (hparts ▸ List.mem_cons_self p rest)
      have hjoin : String.join (((p :: rest).take 2).map firstCharUpper) ≠ "" := by
        show String.join (firstCharUpper p :: (rest.take 1).map firstCharUpper) ≠ ""
        rw [strJoin_cons]
        exact append_ne_empty_left (firstCharUpper_ne_empty hpne)
      rw [if_neg hjoin]
  · intro s hs h
    rw [getAdminInitials_some_reduce s hs]
    by_cases hi : String.join (((initialsParts s).take 2).map firstCharUpper) = ""
    · rw [if_pos hi]; decide
    · rw [if_neg hi]; exact initials_join_length_le_two _ h

/-- C10 witness: a concrete run of the at-most-two-parts clause and the
ASCII two-character bound of the amended theorem at the username
`"jo hn doe"`. -/
theorem c10_witness :
    getAdminInitials (some "jo hn doe") =
      String.join (((initialsParts "jo hn doe").take 2).map firstCharUpper) ∧
    (getAdminInitials (some "jo hn doe")).length ≤ 2 :=
  ⟨c10_getAdminInitials_amended.2.2.2.2.2.1 "jo hn doe" (by decide) (by decide),
   c10_getAdminInitials_amended.2.2.2.2.2.2.1 "jo hn doe" (by decide) (by decide)⟩

end AdminPanel
